import Mathlib

/-!
Verification development for the pur source-based package manager.

The Rust sources are embedded shallowly: pure computations become Lean
functions, filesystem state becomes explicit data (lists of paths, directory
trees, package-database entries), fallible operations return Option or
Except, and the fuel pattern stands in for general recursion (a result of
none / fuelOut means the fuel ran out at every depth, which over all fuels
is divergence).  Machine-integer arithmetic is modelled over Nat / Int with
the overflow-checked semantics: a usize subtraction that underflows is a
panic, modelled as a distinct result constructor.
-/

deriving instance DecidableEq for Except

namespace Pur

/-! ## Strings and digits

stripWs models the whitespace strip applied to the contents of a version
file (repo.rs, InstallData::try_from and Package::try_from).  digitsOf and
parseI32 model the digit extraction and i32 parse of comparse_version
(src/repo.rs lines 356..370); the i32 parse of a digit-only string fails
exactly when the string is empty or its value is over i32::MAX.
-/

def stripWs (s : String) : String :=
  String.mk (s.toList.filter (fun c => !c.isWhitespace))

def digitsOf (s : String) : List Char :=
  s.toList.filter (fun c => c.isDigit)

def digitsVal (cs : List Char) : Nat :=
  cs.foldl (fun acc c => acc * 10 + (c.toNat - 48)) 0

def parseI32 (cs : List Char) : Option Int :=
  if cs.isEmpty then none
  else if digitsVal cs ≤ 2147483647 then some (digitsVal cs) else none

/-- comparse_version (src/repo.rs): extract decimal digits of each argument,
parse both as i32, return x - y.  Both parsed values are nonnegative and at
most i32::MAX, so the i32 subtraction cannot overflow. -/
def comparse_version (x y : String) : Option Int :=
  match parseI32 (digitsOf x), parseI32 (digitsOf y) with
  | some a, some b => some (a - b)
  | _, _ => none

/-! ## The installed-package database

A DbEntry is one directory immediately under /var/db/installed/: its
basename, the names of the files it contains, and the contents of its
version file when that file exists.  tryInstallData is
InstallData::try_from (read version, strip whitespace; missing file means
failure).  hasInstalledMarker is the test used by is_installed: some
contained file name merely ends with the string "installed".
is_built / is_installed are the search loops of api/src/package.rs
(lines 25..111); the same loops appear in src/repo.rs lines 187..257.
-/

structure InstallData where
  version : String
deriving DecidableEq, Repr

structure DbEntry where
  name : String
  files : List String
  version : Option String
deriving DecidableEq, Repr

def tryInstallData (e : DbEntry) : Option InstallData :=
  e.version.map (fun v => InstallData.mk (stripWs v))

/-- The str ends_with test, over the character lists of the two strings. -/
def strEndsWith (s suffix : String) : Bool :=
  suffix.toList.isSuffixOf s.toList

def hasInstalledMarker (e : DbEntry) : Bool :=
  e.files.any (fun f => strEndsWith f "installed")

def is_built (db : List DbEntry) (p : String) : Option InstallData :=
  (db.find? (fun e => e.name == p)).bind tryInstallData

def is_installed (db : List DbEntry) (p : String) : Option InstallData :=
  (db.find? (fun e => hasInstalledMarker e && e.name == p)).bind tryInstallData

/-! ## Repository update (src/repo.rs, update_repository, lines 128..184)

The update script phase is abstracted to two booleans: whether
repo/update exists and whether spawning and waiting on it (and re-reading
the packages) succeeds.  The per-package loop is embedded faithfully: a
package is considered when is_installed finds install data for it; the
version comparison is comparse_version; the iteration skips the package
when comparse_version fails or returns a negative value, and otherwise
invokes the callback, aborting on a callback error.  The second component
of the result records, in order, the names the callback was invoked on.
-/

structure RPackage where
  name : String
  version : String
deriving DecidableEq, Repr

inductive UpdateError
  | NoUpdateScript
  | UpdateScriptError
deriving DecidableEq, Repr

def updateLoop (db : List DbEntry)
    (cb : RPackage → InstallData → Except UpdateError Unit) :
    List RPackage → Except UpdateError Unit × List String
  | [] => (.ok (), [])
  | p :: rest =>
    match is_installed db p.name with
    | none => updateLoop db cb rest
    | some data =>
      match comparse_version p.version data.version with
      | none => updateLoop db cb rest
      | some val =>
        if val < 0 then updateLoop db cb rest
        else
          match cb p data with
          | .error e => (.error e, [p.name])
          | .ok _ =>
            let r := updateLoop db cb rest
            (r.1, p.name :: r.2)

def update_repository (hasScript scriptOk : Bool) (pkgs : List RPackage)
    (db : List DbEntry)
    (cb : RPackage → InstallData → Except UpdateError Unit) :
    Except UpdateError Unit × List String :=
  if hasScript = false then (.error .NoUpdateScript, [])
  else if scriptOk = false then (.error .UpdateScriptError, [])
  else updateLoop db cb pkgs

/-- The condition under which the loop of update_repository reaches the
callback for a package: it is installed, both digit extractions parse, and
the difference is not negative. -/
def wantsUpdate (db : List DbEntry) (p : RPackage) : Bool :=
  match is_installed db p.name with
  | none => false
  | some data =>
    match comparse_version p.version data.version with
    | none => false
    | some val => decide (0 ≤ val)

/-! ## The install file structure (api/src/structure.rs)

A filesystem path is its list of components; the set of directories that
exist is a list of such paths.  splitSlash is the split of a string on
the slash character (Rust str::split teaches that splitting keeps empty
pieces, and splitting a string without the separator yields the one-element
list).  joinChild is PathBuf::join with a relative multi-component child.
get_path_bufs enumerates, as in InstallFileStructure::get_path_bufs
(lines 57..71): the five children joined under parent, then parent itself,
then the parent of parent.
-/

abbrev Path := List String

abbrev Fs := List Path

def splitSlash : List Char → List (List Char)
  | [] => [[]]
  | c :: cs =>
    if c = '/' then [] :: splitSlash cs
    else
      match splitSlash cs with
      | [] => [[c]]
      | p :: ps => (c :: p) :: ps

def joinChild (p : Path) (child : String) : Path :=
  p ++ (splitSlash child.toList).map (fun cs => String.mk cs)

def structChildren : List String :=
  ["usr/bin", "usr/lib", "usr/lib64", "usr/sbin", "usr/linuxrc"]

def parentPath (id : String) : Path :=
  ["var", "db", "installed", id, "files"]

def get_path_bufs (id : String) : List Path :=
  structChildren.map (joinChild (parentPath id)) ++
    [parentPath id, (parentPath id).dropLast]

/-! create_all / delete_all (api/src/structure.rs lines 87..109) iterate
get_path_bufs in order.  create_all skips a path that exists and otherwise
runs fs::create_dir_all, which creates the path and all its missing
ancestors; delete_all skips a path that does not exist and otherwise runs
fs::remove_dir_all, which removes the whole subtree rooted there.  The
filesystem may refuse either primitive (permissions and such); the refusal
is an oracle over paths.  delete_all additionally returns the list of paths
it actually removed, in order, as an observation of the run. -/

inductive FileStructureError
  | FileCreateError (msg : String)
  | FileDeleteError (msg : String)
  | SymLinkError (msg : String)
  | NoPermission
  | OtherError (msg : String)
deriving DecidableEq, Repr

structure FsOracle where
  createFails : Path → Bool
  removeFails : Path → Bool

def createDirAll (fs : Fs) (p : Path) : Fs :=
  fs ++ p.inits.filter (fun q => !q.isEmpty && !fs.contains q)

def removeDirAll (fs : Fs) (p : Path) : Fs :=
  fs.filter (fun q => !p.isPrefixOf q)

def createWalk (orc : FsOracle) : List Path → Fs → Except FileStructureError Fs
  | [], fs => .ok fs
  | p :: rest, fs =>
    if p ∈ fs then createWalk orc rest fs
    else if orc.createFails p then .error (.FileCreateError "")
    else createWalk orc rest (createDirAll fs p)

def create_all (orc : FsOracle) (id : String) (fs : Fs) :
    Except FileStructureError Fs :=
  createWalk orc (get_path_bufs id) fs

def deleteWalk (orc : FsOracle) :
    List Path → Fs → Except FileStructureError (Fs × List Path)
  | [], fs => .ok (fs, [])
  | p :: rest, fs =>
    if p ∈ fs then
      if orc.removeFails p then .error (.FileDeleteError "")
      else
        match deleteWalk orc rest (removeDirAll fs p) with
        | .ok (fs2, removed) => .ok (fs2, p :: removed)
        | .error e => .error e
    else deleteWalk orc rest fs

def delete_all (orc : FsOracle) (id : String) (fs : Fs) :
    Except FileStructureError (Fs × List Path) :=
  deleteWalk orc (get_path_bufs id) fs

/-! ## The path walker (api/src/structure.rs, do_recursive, lines 203..223)

A directory tree is a list of entries, each either a regular file or a
subdirectory (the only shapes the claims involve; the source prints and
ignores anything else).  The embedding keeps the source exactly as written:
on meeting a subdirectory the source recurses on dir, the directory it was
given, not on the discovered child path.  Fuel is consumed at every step,
and a result of none means the fuel ran out; a run that returns none for
every fuel is a diverging run.  The callback receives the file name of the
visited entry, the only part of the path the per-file callbacks of this
crate inspect.
-/

inductive Ent
  | file (name : String)
  | dir (name : String) (entries : List Ent)

def do_recursive {ε : Type} (cb : String → Except ε Unit) :
    Nat → List Ent → List Ent → Option (Except ε Unit)
  | 0, _, _ => none
  | _ + 1, _, [] => some (.ok ())
  | n + 1, d, Ent.file nm :: rest =>
    match cb nm with
    | .error e => some (.error e)
    | .ok _ => do_recursive cb n d rest
  | n + 1, d, Ent.dir _ _ :: rest =>
    match do_recursive cb n d d with
    | some (.ok _) => do_recursive cb n d rest
    | r => r

/-! ## The projection callback and symlink_out_scope / remove_symlinks
(api/src/structure.rs lines 127..200)

Both operations iterate get_children (the five child names with their
sandbox directories), skip a child whose directory does not exist, and walk
the rest with do_recursive.  The per-file callback splits the file name of
the visited path on the slash, evaluates child.len() - 2 on usize — which,
for the one-element list a slash-free file name yields, underflows, a
panic under the overflow-checked semantics — and otherwise indexes the
split at that position and appends the selected component to
/(child)/(id).  The two operations differ only in the filesystem primitive
applied to the computed target (symlink versus remove_file); the model
records the computed target either way, so one walker serves both, and the
panic and divergence behaviour, which is what the claims concern, is
identical.
-/

inductive CbStep
  | panicStep
  | mkLink (target : List String)
deriving DecidableEq, Repr

def projCb (childName selfId : String) (fileName : String) : CbStep :=
  let parts := splitSlash fileName.toList
  if parts.length < 2 then .panicStep
  else
    let base : List String :=
      (splitSlash childName.toList).map (fun cs => String.mk cs) ++ [selfId]
    match parts.get? (parts.length - 2) with
    | some comp => .mkLink (base ++ [String.mk comp])
    | none => .mkLink base

inductive WalkRes
  | panicked
  | fuelOut
  | completed (targets : List (List String))
deriving DecidableEq, Repr

def walkLink (cb : String → CbStep) : Nat → List Ent → List Ent → WalkRes
  | 0, _, _ => .fuelOut
  | _ + 1, _, [] => .completed []
  | n + 1, d, Ent.file nm :: rest =>
    match cb nm with
    | .panicStep => .panicked
    | .mkLink t =>
      match walkLink cb n d rest with
      | .completed ls => .completed (t :: ls)
      | r => r
  | n + 1, d, Ent.dir _ _ :: rest =>
    match walkLink cb n d d with
    | .completed ls =>
      match walkLink cb n d rest with
      | .completed ls2 => .completed (ls ++ ls2)
      | r => r
    | r => r

def scopeWalk (selfId : String) (sb : String → Option (List Ent))
    (fuel : Nat) : List String → WalkRes
  | [] => .completed []
  | c :: cs =>
    match sb c with
    | none => scopeWalk selfId sb fuel cs
    | some ents =>
      match walkLink (projCb c selfId) fuel ents ents with
      | .completed ls =>
        match scopeWalk selfId sb fuel cs with
        | .completed ls2 => .completed (ls ++ ls2)
        | r => r
      | r => r

def symlink_out_scope (fuel : Nat) (selfId : String)
    (sb : String → Option (List Ent)) : WalkRes :=
  scopeWalk selfId sb fuel structChildren

def remove_symlinks (fuel : Nat) (selfId : String)
    (sb : String → Option (List Ent)) : WalkRes :=
  scopeWalk selfId sb fuel structChildren

/-- A sandbox child holds a regular file somewhere, at any depth. -/
def hasRegularFile : List Ent → Bool
  | [] => false
  | Ent.file _ :: _ => true
  | Ent.dir _ es :: rest => hasRegularFile es || hasRegularFile rest

/-- Divergence of symlink_out_scope on a given package and sandbox: the
run exhausts any amount of fuel. -/
def scopeDiverges (selfId : String) (sb : String → Option (List Ent)) : Prop :=
  ∀ n, symlink_out_scope n selfId sb = WalkRes.fuelOut

/-! ## The lifecycle coordinator (front/src/handle.rs, build lines 5..43
and install lines 45..69)

The coordinator calls three Package methods — is_built, build, install —
whose filesystem behaviour the other sections model; here they are the
three fields of PkgOps, state-threaded oracles over an abstract state.  A
failing package build or package install is mapped to CompileFail, exactly
as the two match expressions of handle.rs do.  The three source functions
(install, build, and the for-loop over depends inside build) become the
three constructors of Call, interpreted by the single fuel-indexed runFn:
install first tests is_built and only when it is false runs build; build
first walks the depends list in declaration order, looking every name up
in the package list, failing with NoDependFound on a miss and recursively
installing a hit, and then runs the build step of the package itself.
-/

inductive ExecuteError
  | NoDependFound
  | CompileFail
  | UninstallFail
deriving DecidableEq, Repr

structure CPackage where
  name : String
  depends : List String
deriving DecidableEq, Repr

structure PkgOps (σ : Type) where
  isBuilt : σ → String → Bool
  buildStep : σ → String → Option σ
  installStep : σ → String → Option σ

inductive Call
  | installCall (p : CPackage)
  | buildCall (p : CPackage)
  | depsCall (ds : List String)

/-- The match of handle.rs on a package-method result: an error becomes
CompileFail, success carries the state on. -/
def stepResult {σ : Type} (r : Option σ) : Option (Except ExecuteError σ) :=
  match r with
  | none => some (.error .CompileFail)
  | some s => some (.ok s)

def bindRes {σ : Type} (r : Option (Except ExecuteError σ))
    (f : σ → Option (Except ExecuteError σ)) : Option (Except ExecuteError σ) :=
  match r with
  | none => none
  | some (.error e) => some (.error e)
  | some (.ok s) => f s

def runFn {σ : Type} (ops : PkgOps σ) (pkgs : List CPackage) :
    Nat → Call → σ → Option (Except ExecuteError σ)
  | 0, _, _ => none
  | n + 1, .installCall p, s =>
    bindRes
      (if ops.isBuilt s p.name then some (.ok s)
       else runFn ops pkgs n (.buildCall p) s)
      (fun s1 => stepResult (ops.installStep s1 p.name))
  | n + 1, .buildCall p, s =>
    bindRes (runFn ops pkgs n (.depsCall p.depends) s)
      (fun s1 => stepResult (ops.buildStep s1 p.name))
  | _ + 1, .depsCall [], s => some (.ok s)
  | n + 1, .depsCall (d :: ds), s =>
    match pkgs.find? (fun q => q.name == d) with
    | none => some (.error .NoDependFound)
    | some q =>
      bindRes (runFn ops pkgs n (.installCall q) s)
        (fun s1 => runFn ops pkgs n (.depsCall ds) s1)

/-! ## Uninstall (api/src/package.rs lines 165..189)

uninstall first calls is_built — which, before searching, creates
/var/db/installed/ when that directory is absent (lines 81..88) — and
fails with NotInstalled when it finds nothing.  Otherwise it runs
remove_binaries, which is remove_symlinks with its error mapped to
NoDirectory, and only after that succeeds runs delete_all with its error
mapped to the message-carrying other variant.  The database root is an
Option: none when /var/db/installed/ itself does not exist.  The two
structure operations are abstracted to their success bits, and the trace
lists the structure operations the run attempted, in order.
-/

inductive ParseError
  | NoVersion
  | NoDirectory (msg : String)
  | AlreadyInstalled
  | NotInstalled
  | NoInstallScript
  | FailedInstallScript
  | NoDepends
  | OtherParse (msg : String)
deriving DecidableEq, Repr

def createRootIfMissing (db : Option (List DbEntry)) : List DbEntry :=
  db.getD []

def isBuiltEff (db : Option (List DbEntry)) (name : String) :
    Option InstallData × Option (List DbEntry) :=
  (is_built (createRootIfMissing db) name, some (createRootIfMissing db))

structure UEnv where
  removeOk : Bool
  deleteOk : Bool

inductive UOp
  | removeSymlinksOp
  | deleteAllOp
deriving DecidableEq, Repr

def uninstall (env : UEnv) (db : Option (List DbEntry)) (name : String) :
    Except ParseError Unit × Option (List DbEntry) × List UOp :=
  let r := isBuiltEff db name
  if r.1.isNone then (.error .NotInstalled, r.2, [])
  else if env.removeOk = false then
    (.error (.NoDirectory ""), r.2, [.removeSymlinksOp])
  else if env.deleteOk = false then
    (.error (.OtherParse ""), r.2, [.removeSymlinksOp, .deleteAllOp])
  else (.ok (), r.2, [.removeSymlinksOp, .deleteAllOp])

/-! ## Concrete states used by the closed theorems -/

def c1ops : PkgOps Unit :=
  ⟨fun _ _ => true, fun _ _ => some (), fun _ _ => some ()⟩

def c1pkg : CPackage := ⟨"a", ["zzz"]⟩

def c2db : List DbEntry := [⟨"p", ["installed"], some "2"⟩]

def c2pkgs : List RPackage := [⟨"p", "2"⟩]

def c2cb : RPackage → InstallData → Except UpdateError Unit :=
  fun _ _ => .ok ()

def c3root : List Ent := [Ent.dir "d" []]

def c4sb : String → Option (List Ent) :=
  fun c => if c = "usr/bin" then some [Ent.file "hello"] else none

def c5ents : List Ent := [Ent.dir "sub" [Ent.file "f"]]

def c5sb : String → Option (List Ent) :=
  fun c => if c = "usr/bin" then some c5ents else none

def c6db : List DbEntry := [⟨"alpha", ["installed"], some "1.0"⟩]

def cOrc : FsOracle := ⟨fun _ => false, fun _ => false⟩

def c8fs : Fs :=
  [["var", "db", "installed", "a"],
   ["var", "db", "installed", "a", "files"],
   ["var", "db", "installed", "a", "files", "usr", "bin"]]

def c9fs : Fs :=
  [["var"], ["var", "db"], ["var", "db", "installed"],
   ["var", "db", "installed", "a"],
   ["var", "db", "installed", "a", "files"],
   ["var", "db", "installed", "a", "files", "usr"],
   ["var", "db", "installed", "a", "files", "usr", "bin"],
   ["var", "db", "installed", "a", "files", "usr", "lib"],
   ["var", "db", "installed", "a", "files", "usr", "lib64"],
   ["var", "db", "installed", "a", "files", "usr", "sbin"],
   ["var", "db", "installed", "a", "files", "usr", "linuxrc"]]

/-! # Theorems -/

/-- C10, amended: comparse_version returns the integer parsed from the
decimal digits of the repo version minus the integer parsed from the
decimal digits of the installed version whenever both parses succeed, a
positive result holding exactly when the repo digits exceed the installed
digits; it orders 1.2 against 10 as 12 against 10, and treats 2.0 (20) as
newer than 1.9 (19). -/
theorem comparse_version_spec (x y : String) (a b : Int)
    (hx : parseI32 (digitsOf x) = some a) (hy : parseI32 (digitsOf y) = some b) :
    comparse_version x y = some (a - b) ∧ (0 < a - b ↔ b < a) ∧
    comparse_version "1.2" "10" = some 2 ∧
    comparse_version "2.0" "1.9" = some 1 := by
  refine ⟨?_, sub_pos, by decide, by decide⟩
  simp [comparse_version, hx, hy]

/-- Witness for comparse_version_spec at x = 1.2, y = 10. -/
theorem comparse_version_spec_witness :
    (parseI32 (digitsOf "1.2") = some 12 ∧ parseI32 (digitsOf "10") = some 10) ∧
    (comparse_version "1.2" "10" = some (12 - 10) ∧ (0 < (12 : Int) - 10 ↔ (10 : Int) < 12) ∧
      comparse_version "1.2" "10" = some 2 ∧
      comparse_version "2.0" "1.9" = some 1) :=
  ⟨⟨by decide, by decide⟩,
    comparse_version_spec "1.2" "10" 12 10 (by decide) (by decide)⟩

/-- C10, counterexample: the claim reads the comparison as treating 1.9
(digits 19) as newer than 2.0 (digits 20); the code gives 19 - 20 = -1,
which is negative, so 2.0 is the newer one. -/
theorem comparse_version_one_nine :
    comparse_version "1.9" "2.0" = some (-1) ∧ ((-1 : Int) < 0) := by decide

/-- C3: the walker of api/src/structure.rs recurses on the directory it
was handed, not on the discovered subdirectory, so on any root that
contains a subdirectory it exhausts every amount of fuel: the run
diverges instead of terminating with one visit per regular file. -/
theorem do_recursive_diverges :
    ∀ n : Nat, do_recursive (fun _ => Except.ok ()) n c3root c3root =
      (none : Option (Except Unit Unit)) := by
  intro n
  induction n with
  | zero => rfl
  | succ n ih =>
    show do_recursive _ (n + 1) c3root [Ent.dir "d" []] = none
    simp only [do_recursive]
    rw [ih]

/-- C4: on a sandbox whose usr/bin holds the regular file hello, the
projection never creates the symlink the claim describes: the per-file
callback splits the slash-free file name into a one-element list,
evaluates 1 - 2 on usize, and the run panics. -/
theorem symlink_out_scope_panics :
    symlink_out_scope 5 "pkg" c4sb = WalkRes.panicked := by decide

/-- C7, counterexample: when /var/db/installed/ itself does not exist,
uninstall of an unbuilt package fails with NotInstalled as claimed but
does not leave the on-disk state unchanged: is_built has created the
(empty) database root as a side effect. -/
theorem uninstall_creates_root_on_error :
    uninstall ⟨true, true⟩ none "p" =
      (Except.error ParseError.NotInstalled, some ([] : List DbEntry),
        ([] : List UOp)) ∧
    (none : Option (List DbEntry)) ≠ some ([] : List DbEntry) :=
  ⟨rfl, by decide⟩

/-- C7, amended: uninstall fails with NotInstalled exactly when is_built
finds nothing, and in that case attempts no structure operation and
changes nothing on disk except that is_built creates /var/db/installed/
when it is absent; when uninstall proceeds, the trace of structure
operations is always the symlink withdrawal strictly before any sandbox
deletion, and a withdrawal failure prevents the deletion entirely. -/
theorem uninstall_spec (env : UEnv) (db : Option (List DbEntry)) (name : String) :
    ((uninstall env db name).1 = .error .NotInstalled ↔
      (isBuiltEff db name).1 = none) ∧
    ((isBuiltEff db name).1 = none →
      uninstall env db name =
        (.error .NotInstalled, some (createRootIfMissing db), [])) ∧
    ((uninstall env db name).2.2 = [] ∨
      (uninstall env db name).2.2 = [UOp.removeSymlinksOp] ∨
      (uninstall env db name).2.2 = [UOp.removeSymlinksOp, UOp.deleteAllOp]) ∧
    (env.removeOk = false → (isBuiltEff db name).1 ≠ none →
      uninstall env db name =
        (.error (.NoDirectory ""), some (createRootIfMissing db),
          [UOp.removeSymlinksOp])) := by
  obtain ⟨r, d⟩ := env
  cases h : is_built (createRootIfMissing db) name <;> cases r <;> cases d <;>
    simp [uninstall, isBuiltEff, h]

/-- C2, counterexample: with the package installed at extracted version 2
and the repository advertising extracted version 2, the loop of
update_repository invokes the callback (the code skips only a negative
comparison), while the claim requires no invocation on equal extracted
versions. -/
theorem update_repository_equal_versions :
    (update_repository true true c2pkgs c2db c2cb).2 = ["p"] ∧
    comparse_version "2" "2" = some 0 := by decide

/-- C2, amended: when the update script exists and runs, and the callback
itself succeeds, update_repository invokes the callback exactly for the
packages, in order, that are installed and whose version comparison
parses to a non-negative difference: equal extracted versions do trigger
the callback, a greater installed version does not. -/
theorem update_repository_filter (pkgs : List RPackage) (db : List DbEntry)
    (cb : RPackage → InstallData → Except UpdateError Unit)
    (hcb : ∀ q d, cb q d = .ok ()) :
    update_repository true true pkgs db cb =
      (.ok (), (pkgs.filter (wantsUpdate db)).map RPackage.name) := by
  have key : ∀ ps : List RPackage, updateLoop db cb ps =
      (.ok (), (ps.filter (wantsUpdate db)).map RPackage.name) := by
    intro ps
    induction ps with
    | nil => rfl
    | cons p rest ih =>
      simp only [updateLoop, List.filter_cons, List.map_cons]
      cases hI : is_installed db p.name with
      | none => simp [wantsUpdate, hI, ih]
      | some data =>
        cases hc : comparse_version p.version data.version with
        | none => simp [wantsUpdate, hI, hc, ih]
        | some val =>
          by_cases hv : val < 0
          · have hw : wantsUpdate db p = false := by
              simp only [wantsUpdate, hI, hc, decide_eq_false_iff_not]
              omega
            simp [hc, hw, hv, ih]
          · have hw : wantsUpdate db p = true := by
              simp only [wantsUpdate, hI, hc, decide_eq_true_eq]
              omega
            simp [hc, hw, hv, hcb, ih]
  exact key pkgs

/-- Witness for update_repository_filter at a concrete repository state. -/
theorem update_repository_filter_witness :
    (∀ q d, c2cb q d = Except.ok ()) ∧
    update_repository true true c2pkgs c2db c2cb =
      (.ok (), (c2pkgs.filter (wantsUpdate c2db)).map RPackage.name) :=
  ⟨fun _ _ => rfl,
    update_repository_filter c2pkgs c2db c2cb (fun _ _ => rfl)⟩

/-- Helper for the marker-semantics claim: over a database whose entry
names are distinct (as the entries of one directory always are), the
search of is_installed succeeds exactly when the search of is_built
succeeds on an entry of the claimed name that carries the marker. -/
theorem is_installed_spec_aux : ∀ (db : List DbEntry) (p : String),
    (db.map DbEntry.name).Nodup →
    ((is_installed db p).isSome ↔
      (is_built db p).isSome ∧ ∃ e ∈ db, e.name = p ∧ hasInstalledMarker e = true) := by
  intro db
  induction db with
  | nil => intro p _; simp [is_installed, is_built]
  | cons e es ih =>
    intro p hnd
    simp only [List.map_cons, List.nodup_cons, List.mem_map] at hnd
    obtain ⟨hne, hnd2⟩ := hnd
    by_cases hp : e.name = p
    · have hnames : ∀ x ∈ es, x.name ≠ p := by
        intro x hx hxp
        exact hne ⟨x, hx, hxp.trans hp.symm⟩
      by_cases hm : hasInstalledMarker e = true
      · have h1 : is_installed (e :: es) p = tryInstallData e := by
          simp [is_installed, List.find?, hm, hp]
        have h2 : is_built (e :: es) p = tryInstallData e := by
          simp [is_built, List.find?, hp]
        rw [h1, h2]
        exact ⟨fun hs => ⟨hs, e, by simp, hp, hm⟩, fun h => h.1⟩
      · have hmf : hasInstalledMarker e = false := by
          simpa using hm
        have hfind : es.find? (fun x => hasInstalledMarker x && x.name == p) = none := by
          rw [List.find?_eq_none]
          intro x hx
          simp [hnames x hx]
        have h1 : is_installed (e :: es) p = none := by
          simp [is_installed, List.find?, hmf, hfind]
        have hex : ¬ ∃ x ∈ e :: es, x.name = p ∧ hasInstalledMarker x = true := by
          rintro ⟨x, hx, hxp, hxm⟩
          rcases List.mem_cons.mp hx with h | h
          · rw [h] at hxp hxm; rw [hmf] at hxm; exact Bool.false_ne_true hxm
          · exact hnames x h hxp
        rw [h1]
        simp only [Option.isSome_none, Bool.false_eq_true, false_iff]
        rintro ⟨_, hx⟩
        exact hex hx
    · have hpb : (e.name == p) = false := by simp [hp]
      have h1 : is_installed (e :: es) p = is_installed es p := by
        simp [is_installed, List.find?, hpb]
      have h2 : is_built (e :: es) p = is_built es p := by
        simp [is_built, List.find?, hpb]
      have h3 : (∃ x ∈ e :: es, x.name = p ∧ hasInstalledMarker x = true) ↔
          (∃ x ∈ es, x.name = p ∧ hasInstalledMarker x = true) := by
        constructor
        · rintro ⟨x, hx, hxp, hxm⟩
          rcases List.mem_cons.mp hx with h | h
          · rw [h] at hxp; exact absurd hxp hp
          · exact ⟨x, h, hxp, hxm⟩
        · rintro ⟨x, hx, hxp, hxm⟩
          exact ⟨x, List.mem_cons_of_mem _ hx, hxp, hxm⟩
      rw [h1, h2, h3]
      exact ih p hnd2

/-- C6: over directory listings with distinct entry names, a package is
is_installed only if it is is_built, and it is is_installed exactly when
it is is_built and its database directory contains a file whose name ends
in the string installed (the marker test of the code). -/
theorem is_installed_spec (db : List DbEntry) (p : String)
    (hnd : (db.map DbEntry.name).Nodup) :
    ((is_installed db p).isSome → (is_built db p).isSome) ∧
    ((is_installed db p).isSome ↔
      (is_built db p).isSome ∧ ∃ e ∈ db, e.name = p ∧ hasInstalledMarker e = true) :=
  ⟨fun h => ((is_installed_spec_aux db p hnd).mp h).1, is_installed_spec_aux db p hnd⟩

/-- Witness for is_installed_spec at a one-entry installed database. -/
theorem is_installed_spec_witness :
    ((c6db.map DbEntry.name).Nodup) ∧
    (((is_installed c6db "alpha").isSome → (is_built c6db "alpha").isSome) ∧
    ((is_installed c6db "alpha").isSome ↔
      (is_built c6db "alpha").isSome ∧
        ∃ e ∈ c6db, e.name = "alpha" ∧ hasInstalledMarker e = true)) :=
  ⟨by decide, is_installed_spec c6db "alpha" (by decide)⟩

/-- C1, counterexample: the package a declares the dependency zzz, which
no package of the list resolves, yet install succeeds, because the
coordinator consults is_built first (here true) and walks the depends
list only inside build; the claim requires the call to fail with
NoDependFound. -/
theorem install_skips_missing_dep_when_built :
    runFn c1ops [c1pkg] 5 (.installCall c1pkg) () = some (.ok ()) ∧
    [c1pkg].find? (fun q => q.name == "zzz") = none ∧
    c1pkg.depends = ["zzz"] :=
  ⟨rfl, rfl, rfl⟩

/-- C1, amended: install consults is_built first; when it is true the
depends list is never examined and build is skipped, the package install
step alone running (its failure reported as CompileFail); when it is
false, build runs first, and build walks the depends list in declaration
order, failing with NoDependFound on the first name missing from the
package list and recursively installing each found dependency, invoking
the package build step only after the whole list succeeds; the package
install step follows in either case. -/
theorem install_build_characterization {σ : Type} (ops : PkgOps σ)
    (pkgs : List CPackage) (p : CPackage) (s : σ) (n : Nat) :
    (ops.isBuilt s p.name = true →
      runFn ops pkgs (n + 1) (.installCall p) s =
        stepResult (ops.installStep s p.name)) ∧
    (ops.isBuilt s p.name = false →
      runFn ops pkgs (n + 1) (.installCall p) s =
        bindRes (runFn ops pkgs n (.buildCall p) s)
          (fun s1 => stepResult (ops.installStep s1 p.name))) ∧
    (runFn ops pkgs (n + 1) (.buildCall p) s =
      bindRes (runFn ops pkgs n (.depsCall p.depends) s)
        (fun s1 => stepResult (ops.buildStep s1 p.name))) ∧
    (runFn ops pkgs (n + 1) (.depsCall []) s = some (.ok s)) ∧
    (∀ d ds, pkgs.find? (fun q => q.name == d) = none →
      runFn ops pkgs (n + 1) (.depsCall (d :: ds)) s =
        some (.error .NoDependFound)) ∧
    (∀ d ds q, pkgs.find? (fun q2 => q2.name == d) = some q →
      runFn ops pkgs (n + 1) (.depsCall (d :: ds)) s =
        bindRes (runFn ops pkgs n (.installCall q) s)
          (fun s1 => runFn ops pkgs n (.depsCall ds) s1)) ∧
    (ops.isBuilt s p.name = false → p.depends = [] →
      runFn ops pkgs (n + 3) (.installCall p) s =
        bindRes (stepResult (ops.buildStep s p.name))
          (fun s1 => stepResult (ops.installStep s1 p.name))) := by
  refine ⟨?_, ?_, ?_, ?_, ?_, ?_, ?_⟩
  · intro h; simp [runFn, h, bindRes]
  · intro h; simp [runFn, h, bindRes]
  · simp [runFn]
  · simp [runFn]
  · intro d ds h; simp [runFn, h]
  · intro d ds q h; simp [runFn, h]
  · intro h hd
    simp [runFn, h, hd, bindRes]

/-- Splitting a list of characters without the separator on the separator
yields the one-element list, as str split does. -/
theorem splitSlash_no_slash : ∀ l : List Char, '/' ∉ l → splitSlash l = [l] := by
  intro l
  induction l with
  | nil => intro _; rfl
  | cons c cs ih =>
    intro h
    have hc : ¬ c = '/' := fun hh => h (hh ▸ List.mem_cons_self c cs)
    have hcs : '/' ∉ cs := fun hh => h (List.mem_cons_of_mem c hh)
    simp only [splitSlash, if_neg hc, ih hcs]

/-- Helper: on a child directory whose first entry is a subdirectory, the
projection walker re-walks that same child directory and exhausts any
amount of fuel, whatever the callback. -/
theorem walk_c5_diverges : ∀ (cb : String → CbStep) (n : Nat),
    walkLink cb n c5ents c5ents = WalkRes.fuelOut := by
  intro cb n
  induction n with
  | zero => rfl
  | succ n ih =>
    show walkLink cb (n + 1) c5ents [Ent.dir "sub" [Ent.file "f"]] = _
    simp only [walkLink]
    rw [ih]

/-- C5, counterexample: a sandbox whose usr/bin holds one subdirectory
containing a regular file does hold a regular file, yet neither
symlink_out_scope nor its per-file callback ever panics on it — the
walker diverges on the subdirectory before reaching any file, exhausting
every amount of fuel. -/
theorem symlink_walk_diverges_nested :
    scopeDiverges "pkg" c5sb ∧ hasRegularFile c5ents = true := by
  constructor
  · intro n
    show scopeWalk "pkg" c5sb n structChildren = _
    have h1 : c5sb "usr/bin" = some c5ents := rfl
    simp only [structChildren, scopeWalk, h1, walk_c5_diverges]
  · simp [hasRegularFile, c5ents]

/-- C5, amended: whenever the walker reaches a regular file, the per-file
callback of symlink_out_scope and remove_symlinks splits its slash-free
name into a one-element list and indexes it at len() - 2, an underflowing
usize subtraction, so the operation panics instead of returning a
FileStructureError; in particular both operations panic on any sandbox
whose usr/bin directory starts with a regular file, while a sandbox whose
files all sit below subdirectories makes the walker diverge instead. -/
theorem projection_callback_panics (c id fn : String) (fuel : Nat)
    (sb : String → Option (List Ent)) (rest : List Ent)
    (hfn : '/' ∉ fn.toList)
    (hsb : sb "usr/bin" = some (Ent.file fn :: rest)) :
    (splitSlash fn.toList).length = 1 ∧
    projCb c id fn = CbStep.panicStep ∧
    symlink_out_scope (fuel + 1) id sb = WalkRes.panicked ∧
    remove_symlinks (fuel + 1) id sb = WalkRes.panicked := by
  have hs : splitSlash fn.toList = [fn.toList] := splitSlash_no_slash _ hfn
  have hcb : ∀ c2 : String, projCb c2 id fn = CbStep.panicStep := by
    intro c2
    have hs2 : splitSlash fn.data = [fn.data] := hs
    simp [projCb, hs2]
  have hwalk : walkLink (projCb "usr/bin" id) (fuel + 1)
      (Ent.file fn :: rest) (Ent.file fn :: rest) = WalkRes.panicked := by
    simp only [walkLink, hcb]
  refine ⟨by rw [hs]; rfl, hcb c, ?_, ?_⟩ <;>
  · show scopeWalk id sb (fuel + 1) structChildren = _
    simp only [structChildren, scopeWalk, hsb, hwalk]

/-- Witness for projection_callback_panics at the file hello under
usr/bin. -/
theorem projection_callback_panics_witness :
    (('/' ∉ "hello".toList) ∧
      c4sb "usr/bin" = some (Ent.file "hello" :: [])) ∧
    ((splitSlash "hello".toList).length = 1 ∧
      projCb "usr/bin" "pkg" "hello" = CbStep.panicStep ∧
      symlink_out_scope (2 + 1) "pkg" c4sb = WalkRes.panicked ∧
      remove_symlinks (2 + 1) "pkg" c4sb = WalkRes.panicked) :=
  ⟨⟨by decide, rfl⟩,
    projection_callback_panics "usr/bin" "pkg" "hello" 2 c4sb []
      (by decide) rfl⟩

/-- Every path of the structure enumeration has at least one component. -/
theorem get_path_bufs_ne_nil (id : String) : ∀ p ∈ get_path_bufs id, p ≠ [] := by
  intro p hp
  have he : get_path_bufs id =
      [["var", "db", "installed", id, "files", "usr", "bin"],
       ["var", "db", "installed", id, "files", "usr", "lib"],
       ["var", "db", "installed", id, "files", "usr", "lib64"],
       ["var", "db", "installed", id, "files", "usr", "sbin"],
       ["var", "db", "installed", id, "files", "usr", "linuxrc"],
       ["var", "db", "installed", id, "files"],
       ["var", "db", "installed", id]] := rfl
  rw [he] at hp
  fin_cases hp <;> simp

/-- Helper: a successful pass of create_all over any path list of nonempty
paths leaves every listed path existing, preserves everything that
existed, and a second pass over the resulting state only skips and
succeeds without change. -/
theorem createWalk_spec (orc : FsOracle) : ∀ (paths : List Path) (fs fs2 : Fs),
    (∀ p ∈ paths, p ≠ []) →
    createWalk orc paths fs = .ok fs2 →
    (∀ p ∈ paths, p ∈ fs2) ∧ (∀ q ∈ fs, q ∈ fs2) ∧
      createWalk orc paths fs2 = .ok fs2 := by
  intro paths
  induction paths with
  | nil =>
    intro fs fs2 _ h
    simp only [createWalk] at h
    cases h
    exact ⟨by simp, fun q hq => hq, rfl⟩
  | cons p rest ih =>
    intro fs fs2 hne h
    by_cases hin : p ∈ fs
    · rw [createWalk, if_pos hin] at h
      obtain ⟨h1, h2, h3⟩ := ih fs fs2
        (fun r hr => hne r (List.mem_cons_of_mem _ hr)) h
      have hp2 : p ∈ fs2 := h2 p hin
      refine ⟨?_, h2, ?_⟩
      · intro r hr
        rcases List.mem_cons.mp hr with hh | hh
        · exact hh ▸ hp2
        · exact h1 r hh
      · rw [createWalk, if_pos hp2]; exact h3
    · rw [createWalk, if_neg hin] at h
      by_cases hf : orc.createFails p = true
      · rw [if_pos hf] at h; cases h
      · rw [if_neg hf] at h
        obtain ⟨h1, h2, h3⟩ := ih (createDirAll fs p) fs2
          (fun r hr => hne r (List.mem_cons_of_mem _ hr)) h
        have hpd : p ∈ createDirAll fs p := by
          have hpe : p ≠ [] := hne p (List.mem_cons_self _ _)
          simp only [createDirAll, List.mem_append, List.mem_filter,
            List.mem_inits]
          right
          refine ⟨List.prefix_refl p, ?_⟩
          simp [List.isEmpty_iff, hpe, hin]
        have hp2 : p ∈ fs2 := h2 p hpd
        refine ⟨?_, ?_, ?_⟩
        · intro r hr
          rcases List.mem_cons.mp hr with hh | hh
          · exact hh ▸ hp2
          · exact h1 r hh
        · intro q hq
          exact h2 q (by simp [createDirAll, List.mem_append, hq])
        · rw [createWalk, if_pos hp2]; exact h3

/-- C9: a successful create_all leaves the whole enumeration — the five
child subtrees, the parent, and the parent of the parent — existing and
everything that already existed untouched, and a second invocation on the
resulting state returns success and changes nothing: the operation is
idempotent, already-existing directories being skipped silently. -/
theorem create_all_idem (orc : FsOracle) (id : String) (fs fs2 : Fs)
    (h : create_all orc id fs = .ok fs2) :
    create_all orc id fs2 = .ok fs2 ∧
    (∀ p ∈ get_path_bufs id, p ∈ fs2) ∧ (∀ q ∈ fs, q ∈ fs2) := by
  obtain ⟨h1, h2, h3⟩ := createWalk_spec orc (get_path_bufs id) fs fs2
    (get_path_bufs_ne_nil id) h
  exact ⟨h3, h1, h2⟩

/-- Witness for create_all_idem: creating the structure of package a on an
empty filesystem. -/
theorem create_all_idem_witness :
    (create_all cOrc "a" [] = .ok c9fs) ∧
    (create_all cOrc "a" c9fs = .ok c9fs ∧
      (∀ p ∈ get_path_bufs "a", p ∈ c9fs) ∧ (∀ q ∈ ([] : Fs), q ∈ c9fs)) :=
  ⟨by decide, create_all_idem cOrc "a" [] c9fs (by decide)⟩

/-- Membership in the state left by the recursive removal of one path. -/
theorem removeDirAll_mem (fs : Fs) (p q : Path) :
    q ∈ removeDirAll fs p ↔ q ∈ fs ∧ ¬ p <+: q := by
  simp only [removeDirAll, List.mem_filter, Bool.not_eq_true',
    ← List.isPrefixOf_iff_prefix, Bool.not_eq_true]

/-- Helper: over a path list in which no earlier entry is a prefix of a
later one, and a filesystem that can remove every listed path that
exists, the deletion pass succeeds, its removals are exactly the listed
paths that existed, in list order, and afterwards a path exists exactly
when it existed before and sits under no removed subtree. -/
theorem deleteWalk_spec (orc : FsOracle) : ∀ (paths : List Path) (fs : Fs),
    paths.Pairwise (fun p q => ¬ p <+: q) →
    (∀ p ∈ paths, p ∈ fs → orc.removeFails p = false) →
    ∃ fs2, deleteWalk orc paths fs =
        .ok (fs2, paths.filter (fun p => decide (p ∈ fs))) ∧
      (∀ p ∈ paths, p ∉ fs2) ∧
      (∀ q, q ∈ fs2 ↔ q ∈ fs ∧ ∀ p ∈ paths, p ∈ fs → ¬ p <+: q) := by
  intro paths
  induction paths with
  | nil =>
    intro fs _ _
    exact ⟨fs, rfl, by simp, by simp⟩
  | cons p rest ih =>
    intro fs hpw hrm
    simp only [List.pairwise_cons] at hpw
    obtain ⟨hhead, htail⟩ := hpw
    by_cases hin : p ∈ fs
    · have hrf : orc.removeFails p = false :=
        hrm p (List.mem_cons_self _ _) hin
      obtain ⟨fs2, h1, h2, h3⟩ := ih (removeDirAll fs p) htail
        (fun r hr hrin =>
          hrm r (List.mem_cons_of_mem _ hr) ((removeDirAll_mem fs p r).mp hrin).1)
      have hfc : rest.filter (fun r => decide (r ∈ removeDirAll fs p)) =
          rest.filter (fun r => decide (r ∈ fs)) := by
        apply List.filter_congr
        intro r hr
        simp only [decide_eq_decide]
        rw [removeDirAll_mem]
        exact and_iff_left (hhead r hr)
      refine ⟨fs2, ?_, ?_, ?_⟩
      · rw [deleteWalk, if_pos hin, hrf]
        simp only [Bool.false_eq_true, if_false, h1, hfc]
        simp [List.filter_cons, hin]
      · intro r hr
        rcases List.mem_cons.mp hr with hh | hh
        · subst hh
          intro hmem
          have hq := (h3 r).mp hmem
          exact ((removeDirAll_mem fs r r).mp hq.1).2 (List.prefix_refl r)
        · exact h2 r hh
      · intro q
        rw [h3 q, removeDirAll_mem]
        constructor
        · rintro ⟨⟨hqfs, hpq⟩, hrest⟩
          refine ⟨hqfs, ?_⟩
          intro r hr hrfs
          rcases List.mem_cons.mp hr with hh | hh
          · exact hh ▸ hpq
          · exact hrest r hh ((removeDirAll_mem fs p r).mpr ⟨hrfs, hhead r hh⟩)
        · rintro ⟨hqfs, hall⟩
          have hpq : ¬ p <+: q := hall p (List.mem_cons_self _ _) hin
          refine ⟨⟨hqfs, hpq⟩, ?_⟩
          intro r hr hrin
          exact hall r (List.mem_cons_of_mem _ hr)
            ((removeDirAll_mem fs p r).mp hrin).1
    · obtain ⟨fs2, h1, h2, h3⟩ := ih fs htail
        (fun r hr hrin => hrm r (List.mem_cons_of_mem _ hr) hrin)
      refine ⟨fs2, ?_, ?_, ?_⟩
      · rw [deleteWalk, if_neg hin, h1]
        simp [List.filter_cons, hin]
      · intro r hr
        rcases List.mem_cons.mp hr with hh | hh
        · subst hh
          intro hmem
          exact hin ((h3 r).mp hmem).1
        · exact h2 r hh
      · intro q
        rw [h3 q]
        constructor
        · rintro ⟨hqfs, hrest⟩
          refine ⟨hqfs, ?_⟩
          intro r hr hrfs
          rcases List.mem_cons.mp hr with hh | hh
          · exact absurd (hh ▸ hrfs) hin
          · exact hrest r hh hrfs
        · rintro ⟨hqfs, hall⟩
          exact ⟨hqfs, fun r hr hrfs => hall r (List.mem_cons_of_mem _ hr) hrfs⟩

/-- No earlier entry of the structure enumeration is a prefix of a later
one: the five children differ in their last component, the parent is
shorter than its children only as their own prefix is longer, and the
parent of the parent comes last. -/
theorem get_path_bufs_pairwise (id : String) :
    (get_path_bufs id).Pairwise (fun p q => ¬ p <+: q) := by
  have he : get_path_bufs id =
      [["var", "db", "installed", id, "files", "usr", "bin"],
       ["var", "db", "installed", id, "files", "usr", "lib"],
       ["var", "db", "installed", id, "files", "usr", "lib64"],
       ["var", "db", "installed", id, "files", "usr", "sbin"],
       ["var", "db", "installed", id, "files", "usr", "linuxrc"],
       ["var", "db", "installed", id, "files"],
       ["var", "db", "installed", id]] := rfl
  rw [he]
  simp [List.pairwise_cons, List.cons_prefix_cons, List.prefix_nil]

/-- C8: whenever the filesystem can remove every enumerated path that
exists, delete_all succeeds, removing exactly the existing paths of the
same enumeration create_all walks, in the same order, skipping without
error exactly the paths that do not exist; afterwards no enumerated path
exists, and a path survives exactly when it existed and lay under no
enumerated subtree. -/
theorem delete_all_spec (orc : FsOracle) (id : String) (fs : Fs)
    (hrm : ∀ p ∈ get_path_bufs id, p ∈ fs → orc.removeFails p = false) :
    ∃ fs2, delete_all orc id fs =
        .ok (fs2, (get_path_bufs id).filter (fun p => decide (p ∈ fs))) ∧
      (∀ p ∈ get_path_bufs id, p ∉ fs2) ∧
      (∀ q, q ∈ fs2 ↔ q ∈ fs ∧ ∀ p ∈ get_path_bufs id, p ∈ fs → ¬ p <+: q) :=
  deleteWalk_spec orc (get_path_bufs id) fs (get_path_bufs_pairwise id) hrm

/-- Witness for delete_all_spec at a filesystem holding part of the
structure of package a. -/
theorem delete_all_spec_witness :
    (∀ p ∈ get_path_bufs "a", p ∈ c8fs → cOrc.removeFails p = false) ∧
    (∃ fs2, delete_all cOrc "a" c8fs =
        .ok (fs2, (get_path_bufs "a").filter (fun p => decide (p ∈ c8fs))) ∧
      (∀ p ∈ get_path_bufs "a", p ∉ fs2) ∧
      (∀ q, q ∈ fs2 ↔ q ∈ c8fs ∧ ∀ p ∈ get_path_bufs "a", p ∈ c8fs → ¬ p <+: q)) :=
  ⟨by decide, delete_all_spec cOrc "a" c8fs (by decide)⟩

end Pur
